import Mathlib

/-!
Verification of the transcript batching/packing engine of the
youtube-transcript-downloader repository
(`backend/utils/transcript.py`, class `TranscriptProcessor`).

The packers are pure list algorithms; they are embedded shallowly below.
Filesystem writes are not modelled: an output artifact is modelled by the
dictionary the code builds for it (`file_path`, `videos`, `token_count`),
which is what the code itself returns to its callers.  Python operations
that raise (`range` with a zero step, `ThreadPoolExecutor` with
`max_workers=0`) are modelled with `Option`, `none` standing for the
raised `ValueError`.
-/

namespace TranscriptProc

/-- A transcript record as built by `_process_single_video` /
`process_channel_transcripts` (the `all_transcripts` entries).  The
`transcript` text field of the source dictionary is used only for file
contents, which are not modelled, so only the fields consumed by the
packers are kept. -/
structure Transcript where
  video_id : String
  title : String
  token_count : Nat
deriving DecidableEq, Repr

/-- A `{id, title}` video entry of an output-file dictionary. -/
structure Video where
  id : String
  title : String
deriving DecidableEq, Repr

/-- An output-file dictionary (`file_path`, `videos`, `token_count`) as
appended to `output_files` by the packers and emitters. -/
structure Artifact where
  file_path : String
  videos : List Video
  token_count : Nat
deriving DecidableEq, Repr

def Transcript.toVideo (t : Transcript) : Video := ⟨t.video_id, t.title⟩

/-- Hard ceiling from `_process_by_token_limit` / `_process_by_file_limit`. -/
def MAX_TOKENS_PER_FILE : Nat := 150000

/-- `Config.BATCH_SIZE`. -/
def BATCH_SIZE : Nat := 50

/-- `Config.MAX_WORKERS`. -/
def MAX_WORKERS : Nat := 10

def sumTok (ts : List Transcript) : Nat := (ts.map Transcript.token_count).sum

def sumArtTok (arts : List Artifact) : Nat := (arts.map Artifact.token_count).sum

/-- `_estimate_token_count`: `len(text) // 4`. -/
def estimateTokenCount (text : String) : Nat := text.length / 4

/-- `f'combined_part_{index}.txt'`. -/
def combinedFileName (idx : Nat) : String := "combined_part_" ++ toString idx ++ ".txt"

/-- `f'large_video_{video_id}.txt'`. -/
def largeFileName (t : Transcript) : String := "large_video_" ++ t.video_id ++ ".txt"

/-- Contiguous slices `l[i:i+n]` for `i in range(0, len(l), n)`, as used by
the batching loops.  For `n = 0` Python's `range` raises; callers guard
that case, so `chunksOf 0` (returning the whole list as one chunk) is
never relied upon. -/
def chunksOf (n : Nat) : List α → List (List α)
  | [] => []
  | x :: xs =>
    if n = 0 then [x :: xs]
    else (x :: xs).take n :: chunksOf n ((x :: xs).drop n)
termination_by l => l.length
decreasing_by
  simp only [List.length_drop, List.length_cons]
  omega

/-!
## Strategy A: `_process_by_token_limit`

The per-record loop inside one batch.  State: the current accumulator
(`current_batch['videos']` and `current_batch['token_count']`) and the
running `file_index`.  Emission order of the source is preserved.
-/

def tokenLoop (eff idx : Nat) (curV : List Video) (curTok : Nat) :
    List Transcript → List Artifact
  | [] => if curV = [] then [] else [⟨combinedFileName idx, curV, curTok⟩]
  | t :: ts =>
    if eff < t.token_count then
      if curV = [] then
        ⟨largeFileName t, [t.toVideo], t.token_count⟩ :: tokenLoop eff idx [] 0 ts
      else
        ⟨combinedFileName idx, curV, curTok⟩ ::
          ⟨largeFileName t, [t.toVideo], t.token_count⟩ :: tokenLoop eff (idx + 1) [] 0 ts
    else if eff < curTok + t.token_count ∧ curV ≠ [] then
      ⟨combinedFileName idx, curV, curTok⟩ ::
        tokenLoop eff (idx + 1) [t.toVideo] t.token_count ts
    else
      tokenLoop eff idx (curV ++ [t.toVideo]) (curTok + t.token_count) ts

/-- `_process_by_token_limit(transcripts, token_limit)`.
`effective_token_limit = min(token_limit, MAX_TOKENS_PER_FILE)`;
`batch_size = min(Config.BATCH_SIZE, len(transcripts))`; the loop
`for i in range(0, len(transcripts), batch_size)` raises `ValueError`
(modelled as `none`) when `batch_size` is `0`, i.e. on empty input.
Each batch restarts an empty accumulator and flushes it at batch end;
`file_index` restarts at `len(output_files) + 1`. -/
def processByTokenLimit (transcripts : List Transcript) (token_limit : Nat) :
    Option (List Artifact) :=
  let eff := min token_limit MAX_TOKENS_PER_FILE
  let batchSize := min BATCH_SIZE transcripts.length
  if batchSize = 0 then none
  else some ((chunksOf batchSize transcripts).foldl
      (fun acc batch => acc ++ tokenLoop eff (acc.length + 1) [] 0 batch) [])

/-!
## The spec's reference Strategy A

Modelled from the spec (§4.2 Strategy A): a single left-to-right walk
over all records with no batch chunking; oversized records flush the
current group and are emitted alone; a record that would overflow the
effective limit seals the current non-empty group; input exhaustion
flushes the final non-empty group.
-/

def specTokenLoop (eff idx : Nat) (curV : List Video) (curTok : Nat) :
    List Transcript → List Artifact
  | [] => if curV = [] then [] else [⟨combinedFileName idx, curV, curTok⟩]
  | t :: ts =>
    if eff < t.token_count then
      if curV = [] then
        ⟨largeFileName t, [t.toVideo], t.token_count⟩ :: specTokenLoop eff idx [] 0 ts
      else
        ⟨combinedFileName idx, curV, curTok⟩ ::
          ⟨largeFileName t, [t.toVideo], t.token_count⟩ :: specTokenLoop eff (idx + 1) [] 0 ts
    else if eff < curTok + t.token_count ∧ curV ≠ [] then
      ⟨combinedFileName idx, curV, curTok⟩ ::
        specTokenLoop eff (idx + 1) [t.toVideo] t.token_count ts
    else
      specTokenLoop eff idx (curV ++ [t.toVideo]) (curTok + t.token_count) ts

/-- Modelled from the spec: `pack_by_token_limit(records, limit)` with
`effective_limit = min(limit, MAX_TOKENS_PER_FILE)`, one pass over the
whole record list. -/
def specTokenPack (records : List Transcript) (limit : Nat) : List Artifact :=
  specTokenLoop (min limit MAX_TOKENS_PER_FILE) 1 [] 0 records

/-!
## Strategy C helpers: `_process_batch_by_token_limit`, `_combine_excess_files`

`_process_batch_by_token_limit` is the same accumulate/flush loop but with
the raw `token_limit` (no `MAX_TOKENS_PER_FILE` clamp) and no oversized
special case.
-/

def batchTokenLoop (limit idx : Nat) (curV : List Video) (curTok : Nat) :
    List Transcript → List Artifact
  | [] => if curV = [] then [] else [⟨combinedFileName idx, curV, curTok⟩]
  | t :: ts =>
    if limit < curTok + t.token_count ∧ curV ≠ [] then
      ⟨combinedFileName idx, curV, curTok⟩ ::
        batchTokenLoop limit (idx + 1) [t.toVideo] t.token_count ts
    else
      batchTokenLoop limit idx (curV ++ [t.toVideo]) (curTok + t.token_count) ts

/-- `_process_batch_by_token_limit(batch, token_limit, output_folder, start_index)`. -/
def processBatchByTokenLimit (batch : List Transcript) (token_limit start_index : Nat) :
    List Artifact :=
  batchTokenLoop token_limit start_index [] 0 batch

/-- `_combine_excess_files(excess_files, output_folder)`: one
`excess_content.txt` artifact whose `videos` is the concatenation of the
inputs' video lists and whose `token_count` is the sum.  The source
returns `None` on an empty input list; its only caller passes a
non-empty list, so the model is kept total. -/
def combineExcessFiles (excess_files : List Artifact) : Artifact :=
  ⟨"excess_content.txt", excess_files.flatMap Artifact.videos, sumArtTok excess_files⟩

/-- The warning string appended by the `output_type == 'both'` branch. -/
def excessWarning (path : String) : String :=
  "Content exceeded both token and file limits. Excess content saved to " ++ path

/-!
## Strategy C: the `output_type == 'both'` branch of `process_channel_transcripts`

The loop `for i in range(0, len(all_transcripts), transcripts_per_file)`
over contiguous batches; the cancel-flag checks are modelled as never
set (the flag is constant per run and the cancelled runs are handled in
`processChannelTranscripts` below).  The `break` after the excess merge
discards all batches not yet processed.
-/

def bothLoop (token_limit file_limit : Nat) :
    List (List Transcript) → Nat → List Artifact → List Artifact × List String
  | [], _, combined => (combined, [])
  | batch :: rest, idx, combined =>
    if token_limit < sumTok batch then
      let files := processBatchByTokenLimit batch token_limit idx
      let combined2 := combined ++ files
      if file_limit < combined2.length then
        let excess := combineExcessFiles (combined2.drop file_limit)
        (combined2.take file_limit ++ [excess], [excessWarning excess.file_path])
      else bothLoop token_limit file_limit rest (idx + 1) combined2
    else
      bothLoop token_limit file_limit rest (idx + 1)
        (combined ++ [⟨combinedFileName idx, batch.map Transcript.toVideo, sumTok batch⟩])

/-- The `output_type == 'both'` branch (lines 401-479):
`transcripts_per_file = max(1, len(all_transcripts) // file_limit)`,
then the batch loop.  Returns the `combined_files` list (with the
excess artifact appended when the break fired) and the warnings
appended to the report.  The caller guards `token_limit and file_limit`
(Python truthiness), so `file_limit ≥ 1` whenever this runs; Nat
division stands in for Python's `//`. -/
def processWithBothLimits (transcripts : List Transcript)
    (token_limit file_limit : Nat) : List Artifact × List String :=
  let perFile := max 1 (transcripts.length / file_limit)
  bothLoop token_limit file_limit (chunksOf perFile transcripts) 1 []

/-!
## Strategy B: `_process_by_file_limit`
-/

/-- A grouped-transcripts dictionary (`transcripts`, `token_count`). -/
structure TGroup where
  transcripts : List Transcript
  token_count : Nat
deriving DecidableEq, Repr

/-- Step 1 grouping loop of `_process_by_file_limit`: walk the
descending-sorted transcripts; a transcript above the 10000 solo
threshold, or one that would push the accumulating group past
`MAX_TOKENS_PER_FILE`, first flushes the accumulating group and then
forms its own group (skipped entirely when its `token_count` is 0);
otherwise it joins the accumulating group. -/
def groupLoop (cur : List Transcript) (curTok : Nat) :
    List Transcript → List TGroup
  | [] => if cur = [] then [] else [⟨cur, curTok⟩]
  | t :: ts =>
    if 10000 < t.token_count ∨ MAX_TOKENS_PER_FILE < curTok + t.token_count then
      (if cur = [] then [] else [⟨cur, curTok⟩]) ++
        (if 0 < t.token_count then [⟨[t], t.token_count⟩] else []) ++
        groupLoop [] 0 ts
    else
      groupLoop (cur ++ [t]) (curTok + t.token_count) ts

/-- `sorted(transcripts, key=lambda t: t['token_count'], reverse=True)`
(stable). -/
def sortTranscriptsDesc (ts : List Transcript) : List Transcript :=
  ts.mergeSort (fun a b => b.token_count ≤ a.token_count)

/-- `grouped_transcripts.sort(key=lambda g: g['token_count'])` (stable). -/
def sortGroupsAsc (gs : List TGroup) : List TGroup :=
  gs.mergeSort (fun a b => a.token_count ≤ b.token_count)

/-- One iteration of the step 2 merge loop: pop the first two groups of
the working list; merge them (and re-sort) when the combined cost stays
within `MAX_TOKENS_PER_FILE`, otherwise keep only the second (larger)
one, appended at the end without re-sorting. -/
def mergeStep : List TGroup → List TGroup
  | g1 :: g2 :: rest =>
    if g1.token_count + g2.token_count ≤ MAX_TOKENS_PER_FILE then
      sortGroupsAsc (rest ++ [⟨g1.transcripts ++ g2.transcripts,
        g1.token_count + g2.token_count⟩])
    else rest ++ [g2]
  | gs => gs

theorem length_sortGroupsAsc (gs : List TGroup) :
    (sortGroupsAsc gs).length = gs.length :=
  List.length_mergeSort gs

theorem length_mergeStep (gs : List TGroup) (h : 2 ≤ gs.length) :
    (mergeStep gs).length + 1 = gs.length := by
  match gs with
  | g1 :: g2 :: rest =>
    simp only [mergeStep]
    split <;> simp [length_sortGroupsAsc]

/-- The `while len(grouped_transcripts) > file_limit` merge loop. -/
def mergeLoop (gs : List TGroup) (file_limit : Nat) : List TGroup :=
  if gs.length ≤ file_limit then gs
  else if gs.length < 2 then gs
  else mergeLoop (mergeStep gs) file_limit
termination_by gs.length
decreasing_by
  have h2 : 2 ≤ gs.length := by omega
  have := length_mergeStep gs h2
  omega

/-- `_process_by_file_limit(transcripts, file_limit)`. -/
def processByFileLimit (transcripts : List Transcript) (file_limit : Nat) :
    List Artifact :=
  if transcripts = [] then []
  else
    let grouped := groupLoop [] 0 (sortTranscriptsDesc transcripts)
    let grouped2 :=
      if file_limit < grouped.length then mergeLoop (sortGroupsAsc grouped) file_limit
      else grouped
    grouped2.enum.map (fun p =>
      ⟨combinedFileName (p.1 + 1), p.2.transcripts.map Transcript.toVideo,
        sumTok p.2.transcripts⟩)

/-- The guard of the merge branch: the first two groups of the working
list fit together under the cap. -/
def headsFit : List TGroup → Bool
  | g1 :: g2 :: _ => g1.token_count + g2.token_count ≤ MAX_TOKENS_PER_FILE
  | _ => false

/-- Auxiliary predicate for stating C7/C2: the merge loop can reach the
file limit without ever hitting the cap-blocked discard branch and
without running out of groups.  It mirrors the recursion of
`mergeLoop`, answering `false` exactly when a run from this state is
obstructed. -/
def mergeOk (gs : List TGroup) (file_limit : Nat) : Bool :=
  if gs.length ≤ file_limit then true
  else if gs.length < 2 then false
  else if headsFit gs then mergeOk (mergeStep gs) file_limit
  else false
termination_by gs.length
decreasing_by
  have h2 : 2 ≤ gs.length := by omega
  have := length_mergeStep gs h2
  omega

/-- "Merging was unobstructed by the cap" for a `_process_by_file_limit`
run on `transcripts` with `file_limit`. -/
def mergeUnobstructed (transcripts : List Transcript) (file_limit : Nat) : Bool :=
  mergeOk (sortGroupsAsc (groupLoop [] 0 (sortTranscriptsDesc transcripts))) file_limit

/-!
## File emitter: `_write_transcript_file` filename derivation

The source keeps a character when Python's `c.isalnum()` holds or when
`c` is one of space, `-`, `_`; every other character becomes `_`.
Python's `str.isalnum` is Unicode-aware.  `pyIsalnum` models it exactly
on the Basic Latin and Latin-1 Supplement ranges (U+0000..U+00FF): the
ASCII alphanumerics, the Latin-1 letters U+00C0..U+00FF except the two
operators `×` (U+00D7) and `÷` (U+00F7), the letters `ª` `µ` `º`, the
superscript numerics `²` `³` `¹` and the vulgar fractions `¼` `½` `¾`
(U+00BC..U+00BE).  Characters above U+00FF are not modelled; no theorem
below evaluates the sanitizer outside Latin-1.
-/

def pyIsalnum (c : Char) : Bool :=
  c.isAlphanum ||
    c.toNat = 0xAA || c.toNat = 0xB5 || c.toNat = 0xBA ||
    c.toNat = 0xB2 || c.toNat = 0xB3 || c.toNat = 0xB9 ||
    (0xBC ≤ c.toNat && c.toNat ≤ 0xBE) ||
    (0xC0 ≤ c.toNat && c.toNat ≤ 0xFF && c.toNat ≠ 0xD7 && c.toNat ≠ 0xF7)

/-- Python `str.strip()` whitespace, modelled on Latin-1: the ASCII
whitespace and separator controls plus U+0085 and U+00A0. -/
def pyIsSpace (c : Char) : Bool :=
  c.toNat = 0x20 || (0x9 ≤ c.toNat && c.toNat ≤ 0xD) ||
    (0x1C ≤ c.toNat && c.toNat ≤ 0x1F) || c.toNat = 0x85 || c.toNat = 0xA0

/-- `''.join(c if c.isalnum() or c in ' -_' else '_' for c in title)`. -/
def sanitizeChars (cs : List Char) : List Char :=
  cs.map (fun c => if pyIsalnum c || c = ' ' || c = '-' || c = '_' then c else '_')

/-- `.strip()` on a character list. -/
def pyStrip (cs : List Char) : List Char :=
  ((cs.dropWhile pyIsSpace).reverse.dropWhile pyIsSpace).reverse

/-- `safe_title` of `_write_transcript_file` (and of the single-video
branch of `process_channel_transcripts`): sanitize, strip, `[:100]`. -/
def safeTitle (title : String) : String :=
  ⟨(pyStrip (sanitizeChars title.toList)).take 100⟩

/-- `f"{safe_title}_{video_id}.txt"`. -/
def transcriptFileName (t : Transcript) : String :=
  safeTitle t.title ++ "_" ++ t.video_id ++ ".txt"

/-- The output-file dictionary returned by `_write_transcript_file`. -/
def writeTranscriptFile (t : Transcript) : Artifact :=
  ⟨transcriptFileName t, [t.toVideo], t.token_count⟩

/-- `_create_all_in_one_file`: `None` on an empty transcript list,
otherwise the `all_transcripts.txt` artifact. -/
def createAllInOneFile (ts : List Transcript) : Option Artifact :=
  if ts = [] then none
  else some ⟨"all_transcripts.txt", ts.map Transcript.toVideo, sumTok ts⟩

/-!
## Orchestrator: `process_channel_transcripts`

A sequential model of the channel path.  External collaborators are
abstracted as function parameters: `hasRequestedLanguage` stands for
"`get_available_languages(video.id)` is non-empty and contains the
requested `language_code`", and `fetchTranscript` stands for a
successful `_process_single_video` fetch (`some formattedText`) or a
failure (`none`).  The shared cancel flag is set at most once, from
outside, before or during the run; the model takes its value as the
constant `cancelled` and places the per-iteration checks where the
source has them, so a flag set before any record is processed is a run
with `cancelled = true` throughout.  Thread-pool completion order only
permutes the `successful`/`failed`/individual-file lists and is
modelled as submission order.  Directory handling, progress callbacks
and the output folder prefix of file paths are not modelled.  A `none`
result models a raised `ValueError` (`ThreadPoolExecutor` with
`max_workers = min(MAX_WORKERS, 0) = 0`, or `range` step 0 inside
`_process_by_token_limit`).  `output_files` entries are `Option`s
because line 377 appends the result of `_create_all_in_one_file`,
which is `None` when no transcript was fetched.
-/

inductive OutputType
  | token_limit
  | file_limit
  | both
deriving DecidableEq, Repr

inductive OutputStyle
  | individual
  | combined
  | both
deriving DecidableEq, Repr

structure FailureEntry where
  id : String
  title : String
  reason : String
deriving DecidableEq, Repr

structure Report where
  successful : List Video
  failed : List FailureEntry
  output_files : List (Option Artifact)
  warnings : List String
  cancelled : Bool
deriving DecidableEq, Repr

def cancelledReport : Report := ⟨[], [], [], [], true⟩

def processChannelTranscripts (videos : List Video)
    (hasRequestedLanguage : Video → Bool)
    (fetchTranscript : Video → Option String)
    (output_type : OutputType) (limit_value : Nat)
    (filter_has_transcript : Bool) (output_style : OutputStyle)
    (token_limit file_limit : Option Nat)
    (cancelled : Bool) (is_single_video : Bool) : Option Report :=
  -- Filter phase (lines 214-236): the cancel check at the top of the
  -- first iteration returns early when the flag is set.
  if filter_has_transcript ∧ cancelled ∧ videos ≠ [] then some cancelledReport
  else
    let videos1 :=
      if filter_has_transcript then videos.filter hasRequestedLanguage else videos
    -- Download phase (lines 240-307): `ThreadPoolExecutor(max_workers=0)`
    -- raises when the (filtered) video list is empty.
    if videos1 = [] then none
    else if cancelled then some cancelledReport
    else
      let outcomes := videos1.map (fun v => (v, fetchTranscript v))
      let all_transcripts := outcomes.filterMap (fun p =>
        p.2.map (fun text =>
          (⟨p.1.id, p.1.title, estimateTokenCount text⟩ : Transcript)))
      let successful := outcomes.filterMap (fun p =>
        if p.2.isSome then some p.1 else none)
      let failed := outcomes.filterMap (fun p =>
        if p.2.isSome then none
        else some (⟨p.1.id, p.1.title, "Transcript not available"⟩ : FailureEntry))
      if is_single_video then
        -- Lines 321-347: at most one file, named like an individual file.
        let files : List (Option Artifact) :=
          match all_transcripts with
          | [] => []
          | t :: _ => [some (writeTranscriptFile t)]
        some ⟨successful, failed, files, [], false⟩
      else
        -- Lines 359-364: individual files; `_process_individual_files`
        -- builds its own executor, which raises on an empty list.
        let indiv : Option (List (Option Artifact)) :=
          if output_style = OutputStyle.individual ∨ output_style = OutputStyle.both then
            if all_transcripts = [] then none
            else some (all_transcripts.map (fun t => some (writeTranscriptFile t)))
          else some []
        match indiv with
        | none => none
        | some indivFiles =>
          -- Line 377: the all-in-one result is appended unconditionally.
          let allInOne : Option Artifact := createAllInOneFile all_transcripts
          let combinedRes : Option (List Artifact × List String) :=
            if output_style = OutputStyle.combined ∨ output_style = OutputStyle.both then
              match output_type with
              | OutputType.token_limit =>
                (processByTokenLimit all_transcripts limit_value).map (fun fs => (fs, []))
              | OutputType.file_limit =>
                some (processByFileLimit all_transcripts limit_value, [])
              | OutputType.both =>
                match token_limit, file_limit with
                | some tl, some fl =>
                  -- `if token_limit and file_limit`: Python truthiness.
                  if 0 < tl ∧ 0 < fl then
                    some (processWithBothLimits all_transcripts tl fl)
                  else
                    (processByTokenLimit all_transcripts limit_value).map
                      (fun fs => (fs, []))
                | _, _ =>
                  (processByTokenLimit all_transcripts limit_value).map
                    (fun fs => (fs, []))
            else some ([], [])
          match combinedRes with
          | none => none
          | some (combinedFiles, warns) =>
            some ⟨successful, failed,
              indivFiles ++ [allInOne] ++ combinedFiles.map some, warns, false⟩

/-!
## Lemmas about `chunksOf`
-/

theorem chunksOf_flatten (n : Nat) (l : List α) : (chunksOf n l).flatten = l := by
  match l with
  | [] => simp [chunksOf]
  | x :: xs =>
    rw [chunksOf]
    split
    · simp
    · rename_i h
      have ih := chunksOf_flatten n ((x :: xs).drop n)
      simp only [List.flatten_cons, ih]
      exact List.take_append_drop n (x :: xs)
termination_by l.length
decreasing_by simp only [List.length_drop, List.length_cons]; omega

theorem chunksOf_step (n : Nat) (l : List α) (hne : l ≠ []) (hn : n ≠ 0) :
    chunksOf n l = l.take n :: chunksOf n (l.drop n) := by
  match l with
  | [] => exact absurd rfl hne
  | x :: xs => rw [chunksOf, if_neg hn]

theorem chunksOf_one (l : List α) : chunksOf 1 l = l.map (fun x => [x]) := by
  match l with
  | [] => simp [chunksOf]
  | x :: xs =>
    rw [chunksOf, if_neg (by norm_num)]
    simp only [List.take_succ_cons, List.take_zero, List.drop_succ_cons, List.drop_zero,
      List.map_cons]
    rw [chunksOf_one xs]
termination_by l.length
decreasing_by simp only [List.length_drop, List.length_cons]; omega

theorem chunksOf_of_length_le (n : Nat) (l : List α) (hne : l ≠ [])
    (hlen : l.length ≤ n) : chunksOf n l = [l] := by
  match l with
  | [] => exact absurd rfl hne
  | x :: xs =>
    have hn : n ≠ 0 := by
      intro h0
      rw [h0] at hlen
      simp at hlen
    rw [chunksOf, if_neg hn]
    have htake : (x :: xs).take n = x :: xs := List.take_of_length_le hlen
    have hdrop : (x :: xs).drop n = [] := List.drop_eq_nil_of_le hlen
    rw [htake, hdrop]
    simp [chunksOf]

theorem chunksOf_min_batch (n : Nat) (l : List α) (hne : l ≠ []) :
    chunksOf (min n l.length) l = chunksOf n l := by
  rcases Nat.le_total n l.length with h | h
  · rw [Nat.min_eq_left h]
  · rw [Nat.min_eq_right h, chunksOf_of_length_le n l hne h]
    exact (chunksOf_of_length_le l.length l hne le_rfl).symm ▸ rfl

/-!
## Lemmas about the sums
-/

@[simp] theorem sumTok_nil : sumTok [] = 0 := rfl

@[simp] theorem sumTok_cons (t : Transcript) (ts : List Transcript) :
    sumTok (t :: ts) = t.token_count + sumTok ts := by
  simp [sumTok]

@[simp] theorem sumTok_append (l1 l2 : List Transcript) :
    sumTok (l1 ++ l2) = sumTok l1 + sumTok l2 := by
  simp [sumTok]

@[simp] theorem sumArtTok_nil : sumArtTok [] = 0 := rfl

@[simp] theorem sumArtTok_cons (a : Artifact) (l : List Artifact) :
    sumArtTok (a :: l) = a.token_count + sumArtTok l := by
  simp [sumArtTok]

@[simp] theorem sumArtTok_append (l1 l2 : List Artifact) :
    sumArtTok (l1 ++ l2) = sumArtTok l1 + sumArtTok l2 := by
  simp [sumArtTok]

/-!
## Lemmas about the Strategy A loop
-/

theorem tokenLoop_videos (eff idx : Nat) (curV : List Video) (curTok : Nat)
    (ts : List Transcript) :
    (tokenLoop eff idx curV curTok ts).flatMap Artifact.videos
      = curV ++ ts.map Transcript.toVideo := by
  induction ts generalizing idx curV curTok with
  | nil =>
    by_cases h : curV = [] <;> simp [tokenLoop, h]
  | cons t ts ih =>
    simp only [tokenLoop]
    split_ifs with h1 h2 h3
    · subst h2
      simp [List.flatMap_cons, ih]
    · simp [List.flatMap_cons, ih]
    · simp [List.flatMap_cons, ih]
    · rw [ih]
      simp

theorem tokenLoop_sum (eff idx : Nat) (curV : List Video) (curTok : Nat)
    (ts : List Transcript) (h0 : curV = [] → curTok = 0) :
    sumArtTok (tokenLoop eff idx curV curTok ts) = curTok + sumTok ts := by
  induction ts generalizing idx curV curTok with
  | nil =>
    by_cases h : curV = []
    · simp [tokenLoop, h, h0 h]
    · simp [tokenLoop, h]
  | cons t ts ih =>
    simp only [tokenLoop]
    split_ifs with h1 h2 h3
    · have hc := h0 h2
      simp [ih idx [] 0 (fun _ => rfl), hc]
    · simp [ih (idx + 1) [] 0 (fun _ => rfl)]
    · simp [ih (idx + 1) [t.toVideo] t.token_count (by simp)]
    · rw [ih idx (curV ++ [t.toVideo]) (curTok + t.token_count) (by simp)]
      simp
      omega

theorem tokenLoop_cap (eff : Nat) (hEff : eff ≤ MAX_TOKENS_PER_FILE)
    (idx : Nat) (curV : List Video) (curTok : Nat)
    (ts : List Transcript)
    (hCur : curTok ≤ eff) (h0 : curV = [] → curTok = 0) :
    ∀ a ∈ tokenLoop eff idx curV curTok ts,
      a.token_count ≤ MAX_TOKENS_PER_FILE ∨ a.videos.length = 1 := by
  induction ts generalizing idx curV curTok with
  | nil =>
    intro a ha
    by_cases h : curV = [] <;> simp [tokenLoop, h] at ha
    subst ha
    exact Or.inl (le_trans hCur hEff)
  | cons t ts ih =>
    intro a ha
    simp only [tokenLoop] at ha
    split_ifs at ha with h1 h2 h3
    · simp only [List.mem_cons] at ha
      rcases ha with rfl | ha
      · exact Or.inr rfl
      · exact ih idx [] 0 (Nat.zero_le eff) (fun _ => rfl) a ha
    · simp only [List.mem_cons] at ha
      rcases ha with rfl | rfl | ha
      · exact Or.inl (le_trans hCur hEff)
      · exact Or.inr rfl
      · exact ih (idx + 1) [] 0 (Nat.zero_le eff) (fun _ => rfl) a ha
    · simp only [List.mem_cons] at ha
      rcases ha with rfl | ha
      · exact Or.inl (le_trans hCur hEff)
      · exact ih (idx + 1) [t.toVideo] t.token_count (le_of_not_lt h1) (by simp) a ha
    · refine ih idx (curV ++ [t.toVideo]) (curTok + t.token_count) ?_ (by simp) a ha
      by_cases hcv : curV = []
      · have := h0 hcv
        omega
      · have hA : ¬ eff < curTok + t.token_count := fun hlt => h3 ⟨hlt, hcv⟩
        omega

theorem tokenLoop_eq_spec (eff idx : Nat) (curV : List Video) (curTok : Nat)
    (ts : List Transcript) :
    tokenLoop eff idx curV curTok ts = specTokenLoop eff idx curV curTok ts := by
  induction ts generalizing idx curV curTok with
  | nil => rfl
  | cons t ts ih =>
    simp only [tokenLoop, specTokenLoop]
    split_ifs <;> simp [ih]

/-!
## Lemmas about the per-batch fold of `_process_by_token_limit`
-/

theorem tokenFold_videos (eff : Nat) (chunks : List (List Transcript))
    (acc : List Artifact) :
    ((chunks.foldl (fun acc batch =>
        acc ++ tokenLoop eff (acc.length + 1) [] 0 batch) acc).flatMap Artifact.videos)
      = acc.flatMap Artifact.videos ++ chunks.flatten.map Transcript.toVideo := by
  induction chunks generalizing acc with
  | nil => simp
  | cons batch chunks ih =>
    simp only [List.foldl_cons, List.flatten_cons, List.map_append]
    rw [ih]
    simp [tokenLoop_videos]

theorem tokenFold_sum (eff : Nat) (chunks : List (List Transcript))
    (acc : List Artifact) :
    sumArtTok (chunks.foldl (fun acc batch =>
        acc ++ tokenLoop eff (acc.length + 1) [] 0 batch) acc)
      = sumArtTok acc + sumTok chunks.flatten := by
  induction chunks generalizing acc with
  | nil => simp [sumTok]
  | cons batch chunks ih =>
    simp only [List.foldl_cons, List.flatten_cons]
    rw [ih]
    simp only [sumArtTok_append, sumTok_append]
    rw [tokenLoop_sum eff (acc.length + 1) [] 0 batch (fun _ => rfl)]
    omega

theorem tokenFold_cap (eff : Nat) (hEff : eff ≤ MAX_TOKENS_PER_FILE)
    (chunks : List (List Transcript)) (acc : List Artifact)
    (hacc : ∀ a ∈ acc, a.token_count ≤ MAX_TOKENS_PER_FILE ∨ a.videos.length = 1) :
    ∀ a ∈ chunks.foldl (fun acc batch =>
        acc ++ tokenLoop eff (acc.length + 1) [] 0 batch) acc,
      a.token_count ≤ MAX_TOKENS_PER_FILE ∨ a.videos.length = 1 := by
  induction chunks generalizing acc with
  | nil => exact hacc
  | cons batch chunks ih =>
    simp only [List.foldl_cons]
    refine ih _ ?_
    intro a ha
    rcases List.mem_append.mp ha with h | h
    · exact hacc a h
    · exact tokenLoop_cap eff hEff (acc.length + 1) [] 0 batch (Nat.zero_le eff)
        (fun _ => rfl) a h

/-!
## C1: the token-limit packer preserves every record exactly once, in order
-/

/-- C1: for every non-empty record list and positive limit,
`_process_by_token_limit` succeeds and the video lists of its artifacts,
concatenated in output order, are exactly the input records (as
`{id, title}` entries) in input order — every record once, order
preserved within and across groups. -/
theorem tokenLimit_packing_preserves_records (rs : List Transcript) (limit : Nat)
    (hne : rs ≠ []) (_hpos : 0 < limit) :
    ∃ arts, processByTokenLimit rs limit = some arts ∧
      arts.flatMap Artifact.videos = rs.map Transcript.toVideo := by
  have hlen : 0 < rs.length := List.length_pos.mpr hne
  have hbs : min BATCH_SIZE rs.length ≠ 0 := by
    simp only [BATCH_SIZE]
    omega
  refine ⟨(chunksOf (min BATCH_SIZE rs.length) rs).foldl
      (fun acc batch =>
        acc ++ tokenLoop (min limit MAX_TOKENS_PER_FILE) (acc.length + 1) [] 0 batch)
      [], ?_, ?_⟩
  · simp only [processByTokenLimit]
    rw [if_neg hbs]
  · rw [tokenFold_videos]
    simp [chunksOf_flatten]

/-- C1 witness. -/
theorem tokenLimit_packing_preserves_records_witness :
    ∃ arts, processByTokenLimit [⟨"a", "A", 5⟩, ⟨"b", "B", 7⟩] 10 = some arts ∧
      arts.flatMap Artifact.videos
        = ([⟨"a", "A", 5⟩, ⟨"b", "B", 7⟩] : List Transcript).map Transcript.toVideo :=
  tokenLimit_packing_preserves_records [⟨"a", "A", 5⟩, ⟨"b", "B", 7⟩] 10
    (by simp) (by omega)

/-!
## C4: the code raises on empty input
-/

/-- C4: on an empty record list `_process_by_token_limit` computes
`batch_size = min(BATCH_SIZE, 0) = 0` and `range(0, 0, 0)` raises
`ValueError` (modelled as `none`), and `process_channel_transcripts` on
an empty video list constructs `ThreadPoolExecutor(max_workers=0)`,
which also raises — instead of returning the empty artifact list and an
empty report the claim describes. -/
theorem empty_input_raises (limit : Nat) (hasLang : Video → Bool)
    (fetch : Video → Option String) (ot : OutputType) (lv : Nat) (ft : Bool)
    (os : OutputStyle) (tl fl : Option Nat) (c isv : Bool) :
    processByTokenLimit [] limit = none ∧
      processChannelTranscripts [] hasLang fetch ot lv ft os tl fl c isv = none := by
  constructor
  · rfl
  · simp only [processChannelTranscripts]
    have hvf : (if ft then List.filter hasLang [] else ([] : List Video)) = [] := by
      cases ft <;> simp
    simp [hvf]

/-!
## C5: sealing behaviour versus the spec's reference algorithm
-/

/-- Shared helper: on non-empty input the source packer equals the
spec's reference loop applied batch-wise to consecutive
`BATCH_SIZE`-sized chunks (file indices continuing across batches). -/
theorem processByTokenLimit_eq_chunked (rs : List Transcript) (limit : Nat)
    (hne : rs ≠ []) :
    processByTokenLimit rs limit
      = some ((chunksOf BATCH_SIZE rs).foldl
          (fun acc batch =>
            acc ++ specTokenLoop (min limit MAX_TOKENS_PER_FILE) (acc.length + 1) [] 0 batch)
          []) := by
  have hlen : 0 < rs.length := List.length_pos.mpr hne
  have hbs : min BATCH_SIZE rs.length ≠ 0 := by
    simp only [BATCH_SIZE]
    omega
  simp only [processByTokenLimit]
  rw [if_neg hbs, chunksOf_min_batch BATCH_SIZE rs hne]
  have hfun : (fun (acc : List Artifact) batch =>
        acc ++ tokenLoop (min limit MAX_TOKENS_PER_FILE) (acc.length + 1) [] 0 batch)
      = (fun acc batch =>
        acc ++ specTokenLoop (min limit MAX_TOKENS_PER_FILE) (acc.length + 1) [] 0 batch) := by
    funext acc batch
    rw [tokenLoop_eq_spec]
  rw [hfun]

/-- C5 counterexample: on 51 one-token records with limit 8000 the code
produces two artifacts (the 50-record batch is flushed at the
`BATCH_SIZE` boundary) while the spec's reference algorithm produces a
single group — two consecutive records that fit together under the
limit land in different artifacts. -/
theorem batching_deviates_from_spec_reference :
    (processByTokenLimit (List.replicate 51 (⟨"v", "T", 1⟩ : Transcript)) 8000).map
        List.length = some 2
    ∧ (specTokenPack (List.replicate 51 (⟨"v", "T", 1⟩ : Transcript)) 8000).length = 1 := by
  constructor
  · rw [processByTokenLimit_eq_chunked _ _ (by simp)]
    have hchunk : chunksOf BATCH_SIZE (List.replicate 51 (⟨"v", "T", 1⟩ : Transcript))
        = [List.replicate 50 ⟨"v", "T", 1⟩, [⟨"v", "T", 1⟩]] := by
      simp only [BATCH_SIZE]
      rw [chunksOf_step 50 _ (by simp) (by norm_num)]
      simp only [List.take_replicate, List.drop_replicate]
      norm_num
      rw [chunksOf_of_length_le 50 _ (by simp) (by norm_num)]
    rw [hchunk]
    decide
  · decide

/-- C5 amended: the packer produces exactly the groups of the spec's
reference algorithm applied independently to each consecutive chunk of
`BATCH_SIZE = 50` records (with file indices continuing across chunks);
equivalently, a group is additionally sealed at every 50-record batch
boundary. -/
theorem token_limit_matches_spec_reference_per_batch (rs : List Transcript)
    (limit : Nat) (hne : rs ≠ []) :
    processByTokenLimit rs limit
      = some ((chunksOf BATCH_SIZE rs).foldl
          (fun acc batch =>
            acc ++ specTokenLoop (min limit MAX_TOKENS_PER_FILE) (acc.length + 1) [] 0 batch)
          []) :=
  processByTokenLimit_eq_chunked rs limit hne

/-- C5 amended witness. -/
theorem token_limit_matches_spec_reference_per_batch_witness :
    processByTokenLimit [(⟨"a", "A", 3⟩ : Transcript)] 5
      = some ((chunksOf BATCH_SIZE [(⟨"a", "A", 3⟩ : Transcript)]).foldl
          (fun acc batch =>
            acc ++ specTokenLoop (min 5 MAX_TOKENS_PER_FILE) (acc.length + 1) [] 0 batch)
          []) :=
  token_limit_matches_spec_reference_per_batch [⟨"a", "A", 3⟩] 5 (by simp)

/-!
## Lemmas about the Strategy C loops
-/

theorem batchTokenLoop_sum (limit idx : Nat) (curV : List Video) (curTok : Nat)
    (ts : List Transcript) (h0 : curV = [] → curTok = 0) :
    sumArtTok (batchTokenLoop limit idx curV curTok ts) = curTok + sumTok ts := by
  induction ts generalizing idx curV curTok with
  | nil =>
    by_cases h : curV = []
    · simp [batchTokenLoop, h, h0 h]
    · simp [batchTokenLoop, h]
  | cons t ts ih =>
    simp only [batchTokenLoop]
    split_ifs with h1
    · simp [ih (idx + 1) [t.toVideo] t.token_count (by simp)]
    · rw [ih idx (curV ++ [t.toVideo]) (curTok + t.token_count) (by simp)]
      simp
      omega

theorem bothLoop_break_shape (token_limit file_limit : Nat)
    (chunks : List (List Transcript)) (idx : Nat) (acc : List Artifact)
    (hw : (bothLoop token_limit file_limit chunks idx acc).2 ≠ []) :
    (bothLoop token_limit file_limit chunks idx acc).1.length = file_limit + 1 ∧
      (bothLoop token_limit file_limit chunks idx acc).2
        = [excessWarning "excess_content.txt"] := by
  induction chunks generalizing idx acc with
  | nil => exact absurd rfl hw
  | cons batch rest ih =>
    simp only [bothLoop] at hw ⊢
    split_ifs at hw ⊢ with h1 h2
    · refine ⟨?_, rfl⟩
      simp only [List.length_append, List.length_take, List.length_cons,
        List.length_nil] at h2 ⊢
      omega
    · exact ih (idx + 1) _ hw
    · exact ih (idx + 1) _ hw

theorem bothLoop_sum (token_limit file_limit : Nat)
    (chunks : List (List Transcript)) (idx : Nat) (acc : List Artifact)
    (hw : (bothLoop token_limit file_limit chunks idx acc).2 = []) :
    sumArtTok (bothLoop token_limit file_limit chunks idx acc).1
      = sumArtTok acc + sumTok chunks.flatten := by
  induction chunks generalizing idx acc with
  | nil => simp [bothLoop]
  | cons batch rest ih =>
    by_cases h1 : token_limit < sumTok batch
    · by_cases h2 : file_limit <
          (acc ++ processBatchByTokenLimit batch token_limit idx).length
      · simp only [bothLoop, if_pos h1, if_pos h2] at hw
        exact absurd hw (List.cons_ne_nil _ _)
      · simp only [bothLoop, if_pos h1, if_neg h2] at hw ⊢
        rw [ih (idx + 1) _ hw]
        have hb := batchTokenLoop_sum token_limit idx [] 0 batch (fun _ => rfl)
        simp only [Nat.zero_add] at hb
        simp only [processBatchByTokenLimit, sumArtTok_append, List.flatten_cons,
          sumTok_append, hb]
        omega
    · simp only [bothLoop, if_neg h1] at hw ⊢
      rw [ih (idx + 1) _ hw]
      simp only [sumArtTok_append, List.flatten_cons, sumTok_append, sumArtTok_cons,
        sumArtTok_nil]
      omega

/-!
## Lemmas about Strategy B
-/

def gSum (gs : List TGroup) : Nat := (gs.map (fun g => sumTok g.transcripts)).sum

@[simp] theorem gSum_nil : gSum [] = 0 := rfl

@[simp] theorem gSum_cons (g : TGroup) (gs : List TGroup) :
    gSum (g :: gs) = sumTok g.transcripts + gSum gs := by
  simp [gSum]

@[simp] theorem gSum_append (l1 l2 : List TGroup) :
    gSum (l1 ++ l2) = gSum l1 + gSum l2 := by
  simp [gSum]

theorem gSum_perm {gs1 gs2 : List TGroup} (h : gs1.Perm gs2) : gSum gs1 = gSum gs2 :=
  (h.map _).sum_eq

theorem sortGroupsAsc_perm (gs : List TGroup) : (sortGroupsAsc gs).Perm gs :=
  List.mergeSort_perm gs _

theorem sortTranscriptsDesc_perm (ts : List Transcript) :
    (sortTranscriptsDesc ts).Perm ts :=
  List.mergeSort_perm ts _

/-- The Group invariant of the file-limit packer: the `token_count`
field is the sum of the member costs, and the group is within the hard
cap unless it is a single transcript. -/
def goodGroup (g : TGroup) : Prop :=
  g.token_count = sumTok g.transcripts ∧
    (g.token_count ≤ MAX_TOKENS_PER_FILE ∨ g.transcripts.length = 1)

theorem groupLoop_transcripts (cur : List Transcript) (curTok : Nat)
    (ts : List Transcript) (hsum : curTok = sumTok cur)
    (hmax : curTok ≤ MAX_TOKENS_PER_FILE) :
    (groupLoop cur curTok ts).flatMap TGroup.transcripts = cur ++ ts := by
  induction ts generalizing cur curTok with
  | nil =>
    by_cases h : cur = [] <;> simp [groupLoop, h]
  | cons t ts ih =>
    simp only [groupLoop]
    by_cases h1 : 10000 < t.token_count ∨ MAX_TOKENS_PER_FILE < curTok + t.token_count
    · rw [if_pos h1]
      have hpos : 0 < t.token_count := by omega
      rw [if_pos hpos]
      by_cases hcur : cur = []
      · simp [hcur, ih [] 0 rfl (Nat.zero_le _)]
      · simp [hcur, ih [] 0 rfl (Nat.zero_le _)]
    · rw [if_neg h1]
      rw [ih (cur ++ [t]) (curTok + t.token_count) (by simp [hsum]) (by omega)]
      simp

theorem groupLoop_good (cur : List Transcript) (curTok : Nat)
    (ts : List Transcript) (hsum : curTok = sumTok cur)
    (hmax : curTok ≤ MAX_TOKENS_PER_FILE) :
    ∀ g ∈ groupLoop cur curTok ts, goodGroup g := by
  induction ts generalizing cur curTok with
  | nil =>
    intro g hg
    by_cases h : cur = [] <;> simp [groupLoop, h] at hg
    subst hg
    exact ⟨hsum, Or.inl hmax⟩
  | cons t ts ih =>
    intro g hg
    simp only [groupLoop] at hg
    by_cases h1 : 10000 < t.token_count ∨ MAX_TOKENS_PER_FILE < curTok + t.token_count
    · rw [if_pos h1] at hg
      rcases List.mem_append.mp hg with hm | hm
      · rcases List.mem_append.mp hm with hm2 | hm2
        · by_cases hcur : cur = []
          · rw [if_pos hcur] at hm2
            simp at hm2
          · rw [if_neg hcur] at hm2
            rw [List.mem_singleton.mp hm2]
            exact ⟨hsum, Or.inl hmax⟩
        · by_cases hpos : 0 < t.token_count
          · rw [if_pos hpos] at hm2
            rw [List.mem_singleton.mp hm2]
            exact ⟨by simp, Or.inr rfl⟩
          · rw [if_neg hpos] at hm2
            simp at hm2
      · exact ih [] 0 rfl (Nat.zero_le _) g hm
    · rw [if_neg h1] at hg
      exact ih (cur ++ [t]) (curTok + t.token_count) (by simp [hsum]) (by omega) g hg

theorem groupLoop_length (cur : List Transcript) (curTok : Nat)
    (ts : List Transcript) :
    (groupLoop cur curTok ts).length
      ≤ ts.length + (if cur = [] then 0 else 1) := by
  induction ts generalizing cur curTok with
  | nil =>
    by_cases h : cur = [] <;> simp [groupLoop, h]
  | cons t ts ih =>
    simp only [groupLoop]
    by_cases h1 : 10000 < t.token_count ∨ MAX_TOKENS_PER_FILE < curTok + t.token_count
    · rw [if_pos h1]
      have hrec := ih [] 0
      simp at hrec
      by_cases hcur : cur = [] <;> by_cases hpos : 0 < t.token_count <;>
        simp only [hcur, hpos, if_true, if_false, if_pos, if_neg,
          List.length_append, List.length_cons, List.length_nil,
          List.length_singleton, ite_true, ite_false, reduceIte] <;>
        simp [hcur, hpos] <;> omega
    · rw [if_neg h1]
      have hrec := ih (cur ++ [t]) (curTok + t.token_count)
      have hne : cur ++ [t] ≠ [] := by simp
      rw [if_neg hne] at hrec
      by_cases hcur : cur = []
      · subst hcur
        simp only [List.nil_append] at hrec
        simp only [List.length_cons]
        simp
        omega
      · simp only [List.length_cons, if_neg hcur]
        omega

theorem mergeStep_good (gs : List TGroup) (h : ∀ g ∈ gs, goodGroup g) :
    ∀ g ∈ mergeStep gs, goodGroup g := by
  match gs with
  | [] => exact h
  | [g1] => exact h
  | g1 :: g2 :: rest =>
    intro g hg
    simp only [mergeStep] at hg
    split_ifs at hg with hfit
    · rcases (sortGroupsAsc_perm _).mem_iff.mp hg with hm
      rcases List.mem_append.mp hm with hm2 | hm2
      · exact h g (by simp [hm2])
      · rw [List.mem_singleton.mp hm2]
        have hg1 := h g1 (by simp)
        have hg2 := h g2 (by simp)
        refine ⟨by simp [hg1.1, hg2.1], Or.inl hfit⟩
    · rcases List.mem_append.mp hg with hm2 | hm2
      · exact h g (by simp [hm2])
      · rw [List.mem_singleton.mp hm2]
        exact h g2 (by simp)

theorem mergeStep_gSum_of_fit (gs : List TGroup) (hfit : headsFit gs = true) :
    gSum (mergeStep gs) = gSum gs := by
  match gs with
  | [] => simp [headsFit] at hfit
  | [g1] => simp [headsFit] at hfit
  | g1 :: g2 :: rest =>
    simp only [headsFit, decide_eq_true_eq] at hfit
    simp only [mergeStep, if_pos hfit]
    rw [gSum_perm (sortGroupsAsc_perm _)]
    simp
    omega

theorem mergeLoop_eq_self (gs : List TGroup) (fl : Nat)
    (h : gs.length ≤ fl ∨ gs.length < 2) : mergeLoop gs fl = gs := by
  unfold mergeLoop
  split_ifs with h1 h2
  · rfl
  · rfl
  · omega

theorem mergeLoop_unfold_step (gs : List TGroup) (fl : Nat)
    (h2 : 2 ≤ gs.length) (hfl : fl < gs.length) :
    mergeLoop gs fl = mergeLoop (mergeStep gs) fl := by
  conv_lhs => rw [mergeLoop]
  rw [if_neg (by omega), if_neg (by omega)]

theorem mergeLoop_good (gs : List TGroup) (fl : Nat)
    (h : ∀ g ∈ gs, goodGroup g) : ∀ g ∈ mergeLoop gs fl, goodGroup g := by
  by_cases hstop : gs.length ≤ fl ∨ gs.length < 2
  · rw [mergeLoop_eq_self gs fl hstop]
    exact h
  · push_neg at hstop
    rw [mergeLoop_unfold_step gs fl (by omega) (by omega)]
    exact mergeLoop_good (mergeStep gs) fl (mergeStep_good gs h)
termination_by gs.length
decreasing_by
  have := length_mergeStep gs (by omega)
  omega

theorem mergeLoop_length_le (gs : List TGroup) (fl : Nat) :
    (mergeLoop gs fl).length ≤ gs.length := by
  by_cases hstop : gs.length ≤ fl ∨ gs.length < 2
  · rw [mergeLoop_eq_self gs fl hstop]
  · push_neg at hstop
    rw [mergeLoop_unfold_step gs fl (by omega) (by omega)]
    have hrec := mergeLoop_length_le (mergeStep gs) fl
    have := length_mergeStep gs (by omega)
    omega
termination_by gs.length
decreasing_by
  have := length_mergeStep gs (by omega)
  omega

theorem mergeLoop_reaches (gs : List TGroup) (fl : Nat) :
    (mergeLoop gs fl).length ≤ fl ∨ (mergeLoop gs fl).length ≤ 1 := by
  by_cases hstop : gs.length ≤ fl ∨ gs.length < 2
  · rw [mergeLoop_eq_self gs fl hstop]
    omega
  · push_neg at hstop
    rw [mergeLoop_unfold_step gs fl (by omega) (by omega)]
    exact mergeLoop_reaches (mergeStep gs) fl
termination_by gs.length
decreasing_by
  have := length_mergeStep gs (by omega)
  omega

theorem mergeOk_sum (gs : List TGroup) (fl : Nat) (h : mergeOk gs fl = true) :
    gSum (mergeLoop gs fl) = gSum gs := by
  rw [mergeOk] at h
  split_ifs at h with h1 h2 h3
  · rw [mergeLoop_eq_self gs fl (Or.inl h1)]
  · rw [mergeLoop_unfold_step gs fl (by omega) (by omega)]
    rw [mergeOk_sum (mergeStep gs) fl h]
    exact mergeStep_gSum_of_fit gs h3
termination_by gs.length
decreasing_by
  have := length_mergeStep gs (by omega)
  omega

theorem mergeOk_length (gs : List TGroup) (fl : Nat) (h : mergeOk gs fl = true) :
    (mergeLoop gs fl).length ≤ fl := by
  rw [mergeOk] at h
  split_ifs at h with h1 h2 h3
  · rw [mergeLoop_eq_self gs fl (Or.inl h1)]
    exact h1
  · rw [mergeLoop_unfold_step gs fl (by omega) (by omega)]
    exact mergeOk_length (mergeStep gs) fl h
termination_by gs.length
decreasing_by
  have := length_mergeStep gs (by omega)
  omega

theorem gSum_eq_sumTok_flatMap (gs : List TGroup) :
    gSum gs = sumTok (gs.flatMap TGroup.transcripts) := by
  induction gs with
  | nil => rfl
  | cons g gs ih => simp [List.flatMap_cons, ih]

theorem sumTok_perm {l1 l2 : List Transcript} (h : l1.Perm l2) :
    sumTok l1 = sumTok l2 :=
  (h.map _).sum_eq

/-- The artifact list of `_process_by_file_limit` projected to groups. -/
theorem processByFileLimit_artifacts (ts : List Transcript) (fl : Nat)
    (hne : ts ≠ []) :
    processByFileLimit ts fl
      = (let grouped := groupLoop [] 0 (sortTranscriptsDesc ts)
         let grouped2 :=
           if fl < grouped.length then mergeLoop (sortGroupsAsc grouped) fl
           else grouped
         grouped2.enum.map (fun p =>
           ⟨combinedFileName (p.1 + 1), p.2.transcripts.map Transcript.toVideo,
             sumTok p.2.transcripts⟩)) := by
  rw [processByFileLimit, if_neg hne]

theorem sumArtTok_ofGroups (gs : List TGroup) :
    sumArtTok (gs.enum.map (fun p =>
      (⟨combinedFileName (p.1 + 1), p.2.transcripts.map Transcript.toVideo,
        sumTok p.2.transcripts⟩ : Artifact))) = gSum gs := by
  simp only [sumArtTok, gSum, List.map_map]
  have : ((fun a : Artifact => a.token_count) ∘ fun p : Nat × TGroup =>
      (⟨combinedFileName (p.1 + 1), p.2.transcripts.map Transcript.toVideo,
        sumTok p.2.transcripts⟩ : Artifact))
      = (fun g : TGroup => sumTok g.transcripts) ∘ Prod.snd := rfl
  rw [this, ← List.map_map, List.enum_map_snd]

/-!
## C2: token-sum preservation across strategies
-/

/-- C2 counterexample: under Strategy C (`output_type == 'both'`), six
100-token records with `token_limit = 50` and `file_limit = 2` produce
artifacts totalling 300 tokens while the input totals 600: the first
batch already overflows the file limit, the `break` fires, and the
second batch (300 tokens) is silently discarded — a loss outside
Strategy B's documented lossy-merge case. -/
theorem token_sum_not_preserved_by_both_limits :
    sumTok [(⟨"v1", "V1", 100⟩ : Transcript), ⟨"v2", "V2", 100⟩, ⟨"v3", "V3", 100⟩,
        ⟨"v4", "V4", 100⟩, ⟨"v5", "V5", 100⟩, ⟨"v6", "V6", 100⟩] = 600
    ∧ sumArtTok (processWithBothLimits
        [⟨"v1", "V1", 100⟩, ⟨"v2", "V2", 100⟩, ⟨"v3", "V3", 100⟩,
         ⟨"v4", "V4", 100⟩, ⟨"v5", "V5", 100⟩, ⟨"v6", "V6", 100⟩] 50 2).1 = 300 := by
  constructor
  · decide
  · simp only [processWithBothLimits]
    rw [show max 1 (List.length [(⟨"v1", "V1", 100⟩ : Transcript), ⟨"v2", "V2", 100⟩,
        ⟨"v3", "V3", 100⟩, ⟨"v4", "V4", 100⟩, ⟨"v5", "V5", 100⟩,
        ⟨"v6", "V6", 100⟩] / 2) = 3 from rfl]
    rw [chunksOf_step 3 _ (by simp) (by norm_num)]
    rw [show List.take 3 [(⟨"v1", "V1", 100⟩ : Transcript), ⟨"v2", "V2", 100⟩,
        ⟨"v3", "V3", 100⟩, ⟨"v4", "V4", 100⟩, ⟨"v5", "V5", 100⟩, ⟨"v6", "V6", 100⟩]
        = [⟨"v1", "V1", 100⟩, ⟨"v2", "V2", 100⟩, ⟨"v3", "V3", 100⟩] from rfl]
    rw [show List.drop 3 [(⟨"v1", "V1", 100⟩ : Transcript), ⟨"v2", "V2", 100⟩,
        ⟨"v3", "V3", 100⟩, ⟨"v4", "V4", 100⟩, ⟨"v5", "V5", 100⟩, ⟨"v6", "V6", 100⟩]
        = [⟨"v4", "V4", 100⟩, ⟨"v5", "V5", 100⟩, ⟨"v6", "V6", 100⟩] from rfl]
    rw [chunksOf_of_length_le 3 _ (by simp) (by norm_num)]
    decide

/-- C2 amended: the token sum over all artifacts equals the input token
sum (a) for the token-limit strategy on any non-empty input, (b) for
the file-limit strategy whenever the merge loop is unobstructed by the
cap (the documented lossy-merge exception), and (c) for the combined
strategy whenever its excess `break` did not fire (no warning recorded);
when the break fires, the batches not yet processed are discarded. -/
theorem token_sum_preservation_amended :
    (∀ (rs : List Transcript) (limit : Nat), rs ≠ [] →
        ∃ arts, processByTokenLimit rs limit = some arts ∧ sumArtTok arts = sumTok rs)
    ∧ (∀ (rs : List Transcript) (fl : Nat), mergeUnobstructed rs fl = true →
        sumArtTok (processByFileLimit rs fl) = sumTok rs)
    ∧ (∀ (rs : List Transcript) (tl fl : Nat), 0 < fl →
        (processWithBothLimits rs tl fl).2 = [] →
          sumArtTok (processWithBothLimits rs tl fl).1 = sumTok rs) := by
  refine ⟨?_, ?_, ?_⟩
  · intro rs limit hne
    have hlen : 0 < rs.length := List.length_pos.mpr hne
    have hbs : min BATCH_SIZE rs.length ≠ 0 := by
      simp only [BATCH_SIZE]
      omega
    refine ⟨_, by simp only [processByTokenLimit]; rw [if_neg hbs], ?_⟩
    rw [tokenFold_sum]
    simp [chunksOf_flatten]
  · intro rs fl h
    by_cases hne : rs = []
    · subst hne
      simp [processByFileLimit]
    · simp only [processByFileLimit, if_neg hne]
      rw [sumArtTok_ofGroups]
      have hGroupSum : gSum (groupLoop [] 0 (sortTranscriptsDesc rs)) = sumTok rs := by
        rw [gSum_eq_sumTok_flatMap,
          groupLoop_transcripts [] 0 _ rfl (Nat.zero_le _)]
        simp only [List.nil_append]
        exact sumTok_perm (sortTranscriptsDesc_perm rs)
      by_cases hfl : fl < (groupLoop [] 0 (sortTranscriptsDesc rs)).length
      · rw [if_pos hfl, mergeOk_sum _ _ h,
          gSum_perm (sortGroupsAsc_perm _), hGroupSum]
      · rw [if_neg hfl, hGroupSum]
  · intro rs tl fl hfl hw
    simp only [processWithBothLimits] at hw ⊢
    rw [bothLoop_sum _ _ _ _ _ hw]
    simp [chunksOf_flatten]

/-- C2 amended witness. -/
theorem token_sum_preservation_amended_witness :
    (∃ arts, processByTokenLimit [(⟨"w1", "W1", 3⟩ : Transcript)] 10 = some arts ∧
        sumArtTok arts = sumTok [(⟨"w1", "W1", 3⟩ : Transcript)])
    ∧ sumArtTok (processByFileLimit [(⟨"w2", "W2", 4⟩ : Transcript)] 1)
        = sumTok [(⟨"w2", "W2", 4⟩ : Transcript)]
    ∧ sumArtTok (processWithBothLimits [(⟨"w3", "W3", 5⟩ : Transcript)] 100 1).1
        = sumTok [(⟨"w3", "W3", 5⟩ : Transcript)] := by
  refine ⟨token_sum_preservation_amended.1 _ 10 (by simp),
    token_sum_preservation_amended.2.1 _ 1 ?_,
    token_sum_preservation_amended.2.2 _ 100 1 (by omega) ?_⟩
  · simp only [mergeUnobstructed, sortTranscriptsDesc, List.mergeSort_singleton,
      sortGroupsAsc]
    simp [groupLoop, List.mergeSort_singleton, mergeOk]
  · simp only [processWithBothLimits]
    rw [show max 1 (List.length [(⟨"w3", "W3", 5⟩ : Transcript)] / 1) = 1 from rfl,
      chunksOf_one]
    decide

/-!
## C3: the hard cap across strategies
-/

/-- C3 counterexample: Strategy C does not honor the hard cap.  Three
100000-token records with `token_limit = 200000` and `file_limit = 1`
yield a first artifact of 200000 tokens containing two records — above
`MAX_TOKENS_PER_FILE = 150000` and not a single oversized record
emitted alone. -/
theorem both_limits_exceed_hard_cap :
    ((processWithBothLimits [(⟨"v1", "V1", 100000⟩ : Transcript),
        ⟨"v2", "V2", 100000⟩, ⟨"v3", "V3", 100000⟩] 200000 1).1.map
          (fun a => (a.token_count, a.videos.length)))
        = [(200000, 2), (100000, 1)]
    ∧ MAX_TOKENS_PER_FILE < 200000 := by
  constructor
  · simp only [processWithBothLimits]
    rw [show max 1 (List.length [(⟨"v1", "V1", 100000⟩ : Transcript),
        ⟨"v2", "V2", 100000⟩, ⟨"v3", "V3", 100000⟩] / 1) = 3 from rfl]
    rw [chunksOf_of_length_le 3 _ (by simp) (by norm_num)]
    decide
  · decide

/-- C3 amended: the `MAX_TOKENS_PER_FILE = 150000` ceiling bounds every
artifact of the token-limit (Strategy A) and file-limit (Strategy B)
packers, except a single oversized record emitted alone; the combined
strategy clamps nothing, so it can emit multi-record artifacts above
the ceiling when the caller's `token_limit` exceeds it. -/
theorem hard_cap_for_token_and_file_strategies :
    (∀ (rs : List Transcript) (limit : Nat) (arts : List Artifact),
        processByTokenLimit rs limit = some arts →
        ∀ a ∈ arts, a.token_count ≤ MAX_TOKENS_PER_FILE ∨ a.videos.length = 1)
    ∧ (∀ (rs : List Transcript) (fl : Nat),
        ∀ a ∈ processByFileLimit rs fl,
          a.token_count ≤ MAX_TOKENS_PER_FILE ∨ a.videos.length = 1) := by
  constructor
  · intro rs limit arts h a ha
    by_cases hbs : min BATCH_SIZE rs.length = 0
    · simp only [processByTokenLimit] at h
      rw [if_pos hbs] at h
      cases h
    · simp only [processByTokenLimit] at h
      rw [if_neg hbs] at h
      cases h
      exact tokenFold_cap _ (Nat.min_le_right _ _) _ [] (by simp) a ha
  · intro rs fl a ha
    by_cases hne : rs = []
    · subst hne
      simp [processByFileLimit] at ha
    · simp only [processByFileLimit, if_neg hne] at ha
      obtain ⟨p, hp, rfl⟩ := List.mem_map.mp ha
      have hsnd : p.2 ∈ (if fl < (groupLoop [] 0 (sortTranscriptsDesc rs)).length
          then mergeLoop (sortGroupsAsc (groupLoop [] 0 (sortTranscriptsDesc rs))) fl
          else groupLoop [] 0 (sortTranscriptsDesc rs)) := by
        have := List.mem_map_of_mem Prod.snd hp
        rwa [List.enum_map_snd] at this
      have hgood : goodGroup p.2 := by
        have hbase := groupLoop_good [] 0 (sortTranscriptsDesc rs) rfl (Nat.zero_le _)
        by_cases hfl : fl < (groupLoop [] 0 (sortTranscriptsDesc rs)).length
        · rw [if_pos hfl] at hsnd
          refine mergeLoop_good _ fl ?_ p.2 hsnd
          intro g hg
          exact hbase g ((sortGroupsAsc_perm _).mem_iff.mp hg)
        · rw [if_neg hfl] at hsnd
          exact hbase p.2 hsnd
      rcases hgood with ⟨hfield, hcap | hone⟩
      · exact Or.inl (hfield ▸ hcap)
      · exact Or.inr (by simp [List.length_map, hone])

/-- C3 amended witness. -/
theorem hard_cap_for_token_and_file_strategies_witness :
    ((⟨"large_video_x.txt", [⟨"x", "X"⟩], 200000⟩ : Artifact).token_count
        ≤ MAX_TOKENS_PER_FILE
      ∨ (⟨"large_video_x.txt", [⟨"x", "X"⟩], 200000⟩ : Artifact).videos.length = 1)
    ∧ ((⟨"combined_part_1.txt", [⟨"y", "Y"⟩], 3⟩ : Artifact).token_count
        ≤ MAX_TOKENS_PER_FILE
      ∨ (⟨"combined_part_1.txt", [⟨"y", "Y"⟩], 3⟩ : Artifact).videos.length = 1) := by
  have h1 : processByTokenLimit [(⟨"x", "X", 200000⟩ : Transcript)] 10
      = some [⟨"large_video_x.txt", [⟨"x", "X"⟩], 200000⟩] := by
    rw [processByTokenLimit_eq_chunked _ _ (by simp)]
    rw [chunksOf_of_length_le BATCH_SIZE _ (by simp) (by simp [BATCH_SIZE])]
    decide
  have h2 : processByFileLimit [(⟨"y", "Y", 3⟩ : Transcript)] 1
      = [⟨"combined_part_1.txt", [⟨"y", "Y"⟩], 3⟩] := by
    simp only [processByFileLimit, sortTranscriptsDesc, List.mergeSort_singleton]
    norm_num
    simp [groupLoop, List.enum]
    exact ⟨rfl, rfl⟩
  exact ⟨hard_cap_for_token_and_file_strategies.1 _ 10 _ h1 _ (by simp),
    hard_cap_for_token_and_file_strategies.2 [⟨"y", "Y", 3⟩] 1 _ (h2 ▸ by simp)⟩

/-!
## C6: the combined strategy's excess handling
-/

/-- C6 counterexample: five 10-token records with `token_limit = 1000`
and `file_limit = 3` produce five artifacts and no warning: every batch
is within the token limit, so the artifact-count check never runs, the
count exceeds `file_limit` (and even `file_limit + 1`) and nothing is
truncated or merged. -/
theorem artifact_count_check_skipped_for_small_batches :
    (processWithBothLimits [(⟨"v1", "V1", 10⟩ : Transcript), ⟨"v2", "V2", 10⟩,
        ⟨"v3", "V3", 10⟩, ⟨"v4", "V4", 10⟩, ⟨"v5", "V5", 10⟩] 1000 3).1.length = 5
    ∧ (processWithBothLimits [(⟨"v1", "V1", 10⟩ : Transcript), ⟨"v2", "V2", 10⟩,
        ⟨"v3", "V3", 10⟩, ⟨"v4", "V4", 10⟩, ⟨"v5", "V5", 10⟩] 1000 3).2 = []
    ∧ 3 + 1 < 5 := by
  have hpre : processWithBothLimits [(⟨"v1", "V1", 10⟩ : Transcript), ⟨"v2", "V2", 10⟩,
      ⟨"v3", "V3", 10⟩, ⟨"v4", "V4", 10⟩, ⟨"v5", "V5", 10⟩] 1000 3
      = bothLoop 1000 3 ([(⟨"v1", "V1", 10⟩ : Transcript), ⟨"v2", "V2", 10⟩,
          ⟨"v3", "V3", 10⟩, ⟨"v4", "V4", 10⟩,
          ⟨"v5", "V5", 10⟩].map fun x => [x]) 1 [] := by
    simp only [processWithBothLimits]
    rw [show max 1 (List.length [(⟨"v1", "V1", 10⟩ : Transcript), ⟨"v2", "V2", 10⟩,
        ⟨"v3", "V3", 10⟩, ⟨"v4", "V4", 10⟩, ⟨"v5", "V5", 10⟩] / 3) = 1 from rfl,
      chunksOf_one]
  rw [hpre]
  refine ⟨by decide, by decide, by decide⟩

/-- C6 amended: the artifact-count check runs only after a batch whose
total exceeds `token_limit`; whenever it does fire (equivalently,
whenever a warning is recorded), the output is truncated to the first
`file_limit` artifacts plus exactly one merged excess artifact
(`file_limit + 1` total), the warning names `excess_content.txt`, and
the remaining batches are discarded; batches within `token_limit` are
appended with no count check, so the final count can otherwise exceed
`file_limit + 1`. -/
theorem excess_merge_shape_when_triggered (rs : List Transcript) (tl fl : Nat)
    (hw : (processWithBothLimits rs tl fl).2 ≠ []) :
    (processWithBothLimits rs tl fl).1.length = fl + 1
    ∧ (processWithBothLimits rs tl fl).2 = [excessWarning "excess_content.txt"] := by
  simp only [processWithBothLimits] at hw ⊢
  exact bothLoop_break_shape tl fl _ 1 [] hw

/-- C6 amended witness. -/
theorem excess_merge_shape_when_triggered_witness :
    (processWithBothLimits [(⟨"u1", "U1", 100⟩ : Transcript), ⟨"u2", "U2", 100⟩,
        ⟨"u3", "U3", 100⟩, ⟨"u4", "U4", 100⟩, ⟨"u5", "U5", 100⟩,
        ⟨"u6", "U6", 100⟩] 50 2).1.length = 2 + 1
    ∧ (processWithBothLimits [(⟨"u1", "U1", 100⟩ : Transcript), ⟨"u2", "U2", 100⟩,
        ⟨"u3", "U3", 100⟩, ⟨"u4", "U4", 100⟩, ⟨"u5", "U5", 100⟩,
        ⟨"u6", "U6", 100⟩] 50 2).2 = [excessWarning "excess_content.txt"] := by
  refine excess_merge_shape_when_triggered _ 50 2 ?_
  simp only [processWithBothLimits]
  rw [show max 1 (List.length [(⟨"u1", "U1", 100⟩ : Transcript), ⟨"u2", "U2", 100⟩,
      ⟨"u3", "U3", 100⟩, ⟨"u4", "U4", 100⟩, ⟨"u5", "U5", 100⟩,
      ⟨"u6", "U6", 100⟩] / 2) = 3 from rfl]
  rw [chunksOf_step 3 _ (by simp) (by norm_num)]
  rw [show List.take 3 [(⟨"u1", "U1", 100⟩ : Transcript), ⟨"u2", "U2", 100⟩,
      ⟨"u3", "U3", 100⟩, ⟨"u4", "U4", 100⟩, ⟨"u5", "U5", 100⟩, ⟨"u6", "U6", 100⟩]
      = [⟨"u1", "U1", 100⟩, ⟨"u2", "U2", 100⟩, ⟨"u3", "U3", 100⟩] from rfl]
  rw [show List.drop 3 [(⟨"u1", "U1", 100⟩ : Transcript), ⟨"u2", "U2", 100⟩,
      ⟨"u3", "U3", 100⟩, ⟨"u4", "U4", 100⟩, ⟨"u5", "U5", 100⟩, ⟨"u6", "U6", 100⟩]
      = [⟨"u4", "U4", 100⟩, ⟨"u5", "U5", 100⟩, ⟨"u6", "U6", 100⟩] from rfl]
  rw [chunksOf_of_length_le 3 _ (by simp) (by norm_num)]
  decide

/-!
## C7: artifact-count bounds of the file-limit packer
-/

/-- C7: `_process_by_file_limit` never produces more artifacts than
there are records, and produces at most `file_limit` artifacts whenever
the merge loop is unobstructed by the hard cap. -/
theorem file_limit_artifact_count_bounds (rs : List Transcript) (fl : Nat) :
    (processByFileLimit rs fl).length ≤ rs.length
    ∧ (mergeUnobstructed rs fl = true → (processByFileLimit rs fl).length ≤ fl) := by
  by_cases hne : rs = []
  · subst hne
    simp [processByFileLimit]
  · simp only [processByFileLimit, if_neg hne, List.length_map, List.enum_length]
    have hgl : (groupLoop [] 0 (sortTranscriptsDesc rs)).length ≤ rs.length := by
      have h := groupLoop_length [] 0 (sortTranscriptsDesc rs)
      simp only [if_pos rfl, Nat.add_zero] at h
      calc (groupLoop [] 0 (sortTranscriptsDesc rs)).length
          ≤ (sortTranscriptsDesc rs).length := h
        _ = rs.length := List.length_mergeSort rs
    constructor
    · by_cases hfl : fl < (groupLoop [] 0 (sortTranscriptsDesc rs)).length
      · rw [if_pos hfl]
        have h1 := mergeLoop_length_le
          (sortGroupsAsc (groupLoop [] 0 (sortTranscriptsDesc rs))) fl
        rw [length_sortGroupsAsc] at h1
        omega
      · rw [if_neg hfl]
        exact hgl
    · intro h
      by_cases hfl : fl < (groupLoop [] 0 (sortTranscriptsDesc rs)).length
      · rw [if_pos hfl]
        exact mergeOk_length _ _ h
      · rw [if_neg hfl]
        omega

/-- C7 witness. -/
theorem file_limit_artifact_count_bounds_witness :
    (processByFileLimit [(⟨"z", "Z", 7⟩ : Transcript)] 1).length
        ≤ ([(⟨"z", "Z", 7⟩ : Transcript)]).length
    ∧ (processByFileLimit [(⟨"z", "Z", 7⟩ : Transcript)] 1).length ≤ 1 := by
  refine ⟨(file_limit_artifact_count_bounds _ 1).1,
    (file_limit_artifact_count_bounds _ 1).2 ?_⟩
  simp only [mergeUnobstructed, sortTranscriptsDesc, List.mergeSort_singleton,
    sortGroupsAsc]
  simp [groupLoop, List.mergeSort_singleton, mergeOk]

/-!
## C10: termination and shape of the merge loop
-/

/-- C10 counterexample: after a cap-blocked discard the working list is
not re-sorted, so a later iteration does not pop the two smallest
groups.  Starting from the sorted groups of 60000/95000/96000/97000
tokens with `file_limit = 1`: the first iteration discards the 60000
group leaving [96000, 97000, 95000]; the second iteration pops the
96000 and 97000 groups even though the 95000 group is strictly
smaller than both. -/
theorem merge_loop_pops_not_two_smallest :
    mergeStep [(⟨[⟨"a", "A", 60000⟩], 60000⟩ : TGroup), ⟨[⟨"b", "B", 95000⟩], 95000⟩,
        ⟨[⟨"c", "C", 96000⟩], 96000⟩, ⟨[⟨"d", "D", 97000⟩], 97000⟩]
      = [⟨[⟨"c", "C", 96000⟩], 96000⟩, ⟨[⟨"d", "D", 97000⟩], 97000⟩,
         ⟨[⟨"b", "B", 95000⟩], 95000⟩]
    ∧ mergeStep [(⟨[⟨"c", "C", 96000⟩], 96000⟩ : TGroup), ⟨[⟨"d", "D", 97000⟩], 97000⟩,
        ⟨[⟨"b", "B", 95000⟩], 95000⟩]
      = [⟨[⟨"b", "B", 95000⟩], 95000⟩, ⟨[⟨"d", "D", 97000⟩], 97000⟩]
    ∧ mergeLoop [(⟨[⟨"a", "A", 60000⟩], 60000⟩ : TGroup), ⟨[⟨"b", "B", 95000⟩], 95000⟩,
        ⟨[⟨"c", "C", 96000⟩], 96000⟩, ⟨[⟨"d", "D", 97000⟩], 97000⟩] 1
      = [⟨[⟨"d", "D", 97000⟩], 97000⟩]
    ∧ (95000 : Nat) < 96000 := by
  refine ⟨by decide, by decide, ?_, by decide⟩
  rw [mergeLoop_unfold_step _ _ (by decide) (by decide),
    show mergeStep [(⟨[⟨"a", "A", 60000⟩], 60000⟩ : TGroup), ⟨[⟨"b", "B", 95000⟩], 95000⟩,
        ⟨[⟨"c", "C", 96000⟩], 96000⟩, ⟨[⟨"d", "D", 97000⟩], 97000⟩]
      = [⟨[⟨"c", "C", 96000⟩], 96000⟩, ⟨[⟨"d", "D", 97000⟩], 97000⟩,
         ⟨[⟨"b", "B", 95000⟩], 95000⟩] from by decide,
    mergeLoop_unfold_step _ _ (by decide) (by decide),
    show mergeStep [(⟨[⟨"c", "C", 96000⟩], 96000⟩ : TGroup), ⟨[⟨"d", "D", 97000⟩], 97000⟩,
        ⟨[⟨"b", "B", 95000⟩], 95000⟩]
      = [⟨[⟨"b", "B", 95000⟩], 95000⟩, ⟨[⟨"d", "D", 97000⟩], 97000⟩] from by decide,
    mergeLoop_unfold_step _ _ (by decide) (by decide),
    show mergeStep [(⟨[⟨"b", "B", 95000⟩], 95000⟩ : TGroup), ⟨[⟨"d", "D", 97000⟩], 97000⟩]
      = [⟨[⟨"d", "D", 97000⟩], 97000⟩] from by decide,
    mergeLoop_eq_self _ _ (by decide)]

/-- C10 amended: each iteration of the merge loop pops the first two
groups of the working list (the two smallest only while the list is
still sorted — after a cap-blocked discard it is not re-sorted) and
appends back exactly one, so the group count strictly decreases by one
per iteration; the loop terminates with at most `max file_limit 1`
groups — it stops exactly when the count reaches `file_limit` or fewer
than two groups remain. -/
theorem merge_loop_termination_amended (gs : List TGroup) (fl : Nat) :
    (2 ≤ gs.length → fl < gs.length →
      (mergeStep gs).length + 1 = gs.length
        ∧ mergeLoop gs fl = mergeLoop (mergeStep gs) fl)
    ∧ ((mergeLoop gs fl).length ≤ fl ∨ (mergeLoop gs fl).length ≤ 1) :=
  ⟨fun h2 hfl => ⟨length_mergeStep gs h2, mergeLoop_unfold_step gs fl h2 hfl⟩,
    mergeLoop_reaches gs fl⟩

/-- C10 amended witness. -/
theorem merge_loop_termination_amended_witness :
    ((mergeStep [(⟨[⟨"m", "M", 5⟩], 5⟩ : TGroup), ⟨[⟨"n", "N", 6⟩], 6⟩]).length + 1
        = ([(⟨[⟨"m", "M", 5⟩], 5⟩ : TGroup), ⟨[⟨"n", "N", 6⟩], 6⟩]).length
      ∧ mergeLoop [(⟨[⟨"m", "M", 5⟩], 5⟩ : TGroup), ⟨[⟨"n", "N", 6⟩], 6⟩] 1
        = mergeLoop (mergeStep [(⟨[⟨"m", "M", 5⟩], 5⟩ : TGroup),
            ⟨[⟨"n", "N", 6⟩], 6⟩]) 1)
    ∧ ((mergeLoop [(⟨[⟨"m", "M", 5⟩], 5⟩ : TGroup), ⟨[⟨"n", "N", 6⟩], 6⟩] 1).length ≤ 1
      ∨ (mergeLoop [(⟨[⟨"m", "M", 5⟩], 5⟩ : TGroup),
          ⟨[⟨"n", "N", 6⟩], 6⟩] 1).length ≤ 1) :=
  ⟨(merge_loop_termination_amended _ 1).1 (by decide) (by decide),
    (merge_loop_termination_amended _ 1).2⟩

/-!
## C8: cancellation before any record is processed
-/

/-- C8: for a non-empty video list, when the shared cancel flag is
already set before any record is processed, the run returns a report
with `cancelled = true` and an empty `output_files` list — no artifact
is produced, regardless of filtering, strategy, style or limits. -/
theorem cancellation_before_processing (videos : List Video)
    (hasLang : Video → Bool) (fetch : Video → Option String)
    (ot : OutputType) (lv : Nat) (ft : Bool) (os : OutputStyle)
    (tl fl : Option Nat) (isv : Bool) (hne : videos ≠ []) :
    ∃ r, processChannelTranscripts videos hasLang fetch ot lv ft os tl fl true isv
        = some r ∧ r.cancelled = true ∧ r.output_files = [] := by
  by_cases hft : ft = true
  · exact ⟨cancelledReport, by simp [processChannelTranscripts, hft, hne], rfl, rfl⟩
  · exact ⟨cancelledReport, by simp [processChannelTranscripts, hft, hne], rfl, rfl⟩

/-- C8 witness. -/
theorem cancellation_before_processing_witness :
    ∃ r, processChannelTranscripts [⟨"a", "A"⟩] (fun _ => true) (fun _ => none)
        OutputType.token_limit 4000 false OutputStyle.both none none true false
        = some r ∧ r.cancelled = true ∧ r.output_files = [] :=
  cancellation_before_processing [⟨"a", "A"⟩] (fun _ => true) (fun _ => none)
    OutputType.token_limit 4000 false OutputStyle.both none none false (by simp)

/-!
## C9: the filename sanitizer's character class
-/

end TranscriptProc
